import Mathlib

/-
Verification of the core of the `arm-neon-simd` library
(src/neon_types.h, src/memory_align.h, src/neon_utils.h).

Shallow embedding conventions:
  * A 128-bit NEON register of four single-precision lanes (`float32x4_t`)
    is modelled as a record of four exact rationals (`F32x4`).  Lane
    arithmetic is exact rational arithmetic; all the concrete values the
    spec tests (small integers, the polynomial coefficients written in the
    source) are used verbatim, so the model follows the source text.
  * A comparison-result register (`uint32x4_t` holding all-ones or
    all-zeros per lane, as produced by `vcgtq_f32`) is modelled as four
    booleans (`U32x4`); on such masks the bitwise select `vbslq_f32`
    coincides with per-lane selection, which is how it is modelled.
  * Memory holding floats is a total function `Nat -> Rat` indexed by
    element (not byte) offsets.  `neon_memory_f32` and `neon_fill_f32`
    take the result of the `IS_ALIGNED` address test as an explicit
    boolean, since the embedding has no byte addresses.  Destination and
    source arrays are distinct functions, which is exactly the
    non-overlap precondition the source documents for `neon_memory_f32`.
  * The C `for` loops are embedded with their guards verbatim plus a
    structural fuel argument; the callers pass fuel `size`, which is
    proved (and for the concrete witnesses, computed) to be enough, so
    the loops always terminate through their own guard.
  * The allocator is modelled by a `Heap`: block identifiers, their
    element contents, the list of live (allocated, not yet freed) blocks,
    and a latch `doubleFree` recording that `free` was called on a block
    that was not live.  Whether the underlying OS allocation call
    (`posix_memalign`) succeeds is an explicit boolean oracle `osOk`.
    A C pointer that may be NULL is `Option Nat` (a block id or null).
  * `memcpy` over float elements copies element values; uninitialised
    fresh storage keeps whatever the heap contents function already held
    at the fresh block (junk), matching `malloc` semantics.

Only the `__aarch64__` branches of the conditionally-compiled reductions
are embedded: the ARMv7 branches of `neon_sum_f32x4` / `neon_min_f32x4`
do not even parse (a missing lane argument and a missing semicolon), so
the AArch64 configuration is the only one that compiles.
-/

/-- The `float32x4_t`: four float lanes, modelled as exact rationals. -/
structure F32x4 where
  s0 : ℚ
  s1 : ℚ
  s2 : ℚ
  s3 : ℚ
  deriving DecidableEq

/-- The `uint32x4_t` restricted to comparison masks: each lane is all-ones
(`true`) or all-zeros (`false`), as produced by `vcgtq_f32`. -/
structure U32x4 where
  b0 : Bool
  b1 : Bool
  b2 : Bool
  b3 : Bool
  deriving DecidableEq

/-- Intrinsic `vdupq_n_f32`: broadcast a scalar into all four lanes. -/
def vdupq_n_f32 (x : ℚ) : F32x4 := ⟨x, x, x, x⟩

/-- Intrinsic `vmulq_f32`: lane-wise multiplication. -/
def vmulq_f32 (a b : F32x4) : F32x4 :=
  ⟨a.s0 * b.s0, a.s1 * b.s1, a.s2 * b.s2, a.s3 * b.s3⟩

/-- Intrinsic `vminq_f32`: lane-wise minimum. -/
def vminq_f32 (a b : F32x4) : F32x4 :=
  ⟨min a.s0 b.s0, min a.s1 b.s1, min a.s2 b.s2, min a.s3 b.s3⟩

/-- Intrinsic `vmaxq_f32`: lane-wise maximum. -/
def vmaxq_f32 (a b : F32x4) : F32x4 :=
  ⟨max a.s0 b.s0, max a.s1 b.s1, max a.s2 b.s2, max a.s3 b.s3⟩

/-- Intrinsic `vfmaq_f32 acc a b = acc + a * b` lane-wise (accumulator
first, matching the C intrinsic argument order). -/
def vfmaq_f32 (acc a b : F32x4) : F32x4 :=
  ⟨acc.s0 + a.s0 * b.s0, acc.s1 + a.s1 * b.s1,
   acc.s2 + a.s2 * b.s2, acc.s3 + a.s3 * b.s3⟩

/-- Intrinsic `vaddvq_f32` (AArch64): horizontal sum of the four lanes. -/
def vaddvq_f32 (v : F32x4) : ℚ := v.s0 + v.s1 + v.s2 + v.s3

/-- Intrinsic `vmaxvq_f32` (AArch64): horizontal maximum of the lanes. -/
def vmaxvq_f32 (v : F32x4) : ℚ := max (max (max v.s0 v.s1) v.s2) v.s3

/-- Intrinsic `vminvq_f32` (AArch64): horizontal minimum of the lanes. -/
def vminvq_f32 (v : F32x4) : ℚ := min (min (min v.s0 v.s1) v.s2) v.s3

/-- Intrinsic `vcgtq_f32`: lane-wise greater-than, producing an
all-ones/all-zeros mask per lane. -/
def vcgtq_f32 (a b : F32x4) : U32x4 :=
  ⟨decide (a.s0 > b.s0), decide (a.s1 > b.s1),
   decide (a.s2 > b.s2), decide (a.s3 > b.s3)⟩

/-- Intrinsic `vbslq_f32`: bitwise select; on comparison masks (each lane
all-ones or all-zeros) this is exactly per-lane selection. -/
def vbslq_f32 (mask : U32x4) (a b : F32x4) : F32x4 :=
  ⟨if mask.b0 then a.s0 else b.s0, if mask.b1 then a.s1 else b.s1,
   if mask.b2 then a.s2 else b.s2, if mask.b3 then a.s3 else b.s3⟩

/-- The `neon_sum_f32x4` (src/neon_utils.h, AArch64 branch): `vaddvq_f32`. -/
def neon_sum_f32x4 (vec : F32x4) : ℚ := vaddvq_f32 vec

/-- The `neon_max_f32x4` (src/neon_utils.h, AArch64 branch): `vmaxvq_f32`. -/
def neon_max_f32x4 (vec : F32x4) : ℚ := vmaxvq_f32 vec

/-- The `neon_min_f32x4` (src/neon_utils.h, AArch64 branch): `vminvq_f32`. -/
def neon_min_f32x4 (vec : F32x4) : ℚ := vminvq_f32 vec

/-- The `neon_dot_f32x4` (src/neon_utils.h): lane-wise product then
horizontal sum. -/
def neon_dot_f32x4 (a b : F32x4) : ℚ :=
  neon_sum_f32x4 (vmulq_f32 a b)

/-- The `neon_cmpgt_f32x4` (src/neon_utils.h): `vcgtq_f32`. -/
def neon_cmpgt_f32x4 (a b : F32x4) : U32x4 := vcgtq_f32 a b

/-- The `neon_select_f32x4` (src/neon_utils.h): `vbslq_f32`. -/
def neon_select_f32x4 (mask : U32x4) (a b : F32x4) : F32x4 :=
  vbslq_f32 mask a b

/-- The `neon_exp_f32x4` (src/neon_utils.h): clamp the input to [-88, 88],
then evaluate the degree-4 polynomial with the source coefficients
`1.0f`, `0.5f`, `0.16666667f`, `0.04166667f` by fused multiply-adds. -/
def neon_exp_f32x4 (x : F32x4) : F32x4 :=
  let x := vminq_f32 x (vdupq_n_f32 88)
  let x := vmaxq_f32 x (vdupq_n_f32 (-88))
  let c1 := vdupq_n_f32 1
  let c2 := vdupq_n_f32 (1 / 2)
  let c3 := vdupq_n_f32 (16666667 / 100000000)
  let c4 := vdupq_n_f32 (4166667 / 100000000)
  let x2 := vmulq_f32 x x
  let x3 := vmulq_f32 x2 x
  let x4 := vmulq_f32 x3 x
  let result := c1
  let result := vfmaq_f32 result x c1
  let result := vfmaq_f32 result x2 c2
  let result := vfmaq_f32 result x3 c3
  let result := vfmaq_f32 result x4 c4
  result

/-- The scalar clamp performed on every lane by the first two lines of
`neon_exp_f32x4` (`vminq` with 88 then `vmaxq` with -88). -/
def clamp88 (y : ℚ) : ℚ := max (min y 88) (-88)

/-- The degree-4 polynomial `neon_exp_f32x4` evaluates on a clamped
lane, with the coefficients written in the source. -/
def expPolySpec (y : ℚ) : ℚ :=
  1 + y + y ^ 2 / 2 + 16666667 / 100000000 * y ^ 3
    + 4166667 / 100000000 * y ^ 4

/-- Claim C6: the horizontal reductions and the 4-lane dot product give
the reference values `dot4([1,2,3,4],[5,6,7,8]) = 70`,
`horizontalSum([1,2,3,4]) = 10`, `horizontalMax([1,5,3,2]) = 5`,
`horizontalMin([1,5,3,2]) = 1`. -/
theorem claim_C6_reductions :
    neon_dot_f32x4 ⟨1, 2, 3, 4⟩ ⟨5, 6, 7, 8⟩ = 70 ∧
    neon_sum_f32x4 ⟨1, 2, 3, 4⟩ = 10 ∧
    neon_max_f32x4 ⟨1, 5, 3, 2⟩ = 5 ∧
    neon_min_f32x4 ⟨1, 5, 3, 2⟩ = 1 := by
  refine ⟨?_, ?_, ?_, ?_⟩ <;>
    norm_num [neon_dot_f32x4, neon_sum_f32x4, neon_max_f32x4,
      neon_min_f32x4, vaddvq_f32, vmaxvq_f32, vminvq_f32, vmulq_f32]

/-- Claim C8: `select(x > 0, x, 0)` keeps the lanes where `x > 0` and
yields 0 elsewhere; on `[-2, 3, -1, 5]` it yields `[0, 3, 0, 5]`. -/
theorem claim_C8_select_relu :
    (∀ x : F32x4,
      neon_select_f32x4 (neon_cmpgt_f32x4 x (vdupq_n_f32 0)) x
          (vdupq_n_f32 0) =
        ⟨if x.s0 > 0 then x.s0 else 0, if x.s1 > 0 then x.s1 else 0,
         if x.s2 > 0 then x.s2 else 0, if x.s3 > 0 then x.s3 else 0⟩) ∧
    neon_select_f32x4
        (neon_cmpgt_f32x4 ⟨-2, 3, -1, 5⟩ (vdupq_n_f32 0))
        ⟨-2, 3, -1, 5⟩ (vdupq_n_f32 0) = ⟨0, 3, 0, 5⟩ := by
  constructor
  · intro x
    simp [neon_select_f32x4, neon_cmpgt_f32x4, vbslq_f32, vcgtq_f32,
      vdupq_n_f32]
  · norm_num [neon_select_f32x4, neon_cmpgt_f32x4, vbslq_f32, vcgtq_f32,
      vdupq_n_f32]

/-- Claim C7, counterexample: the code evaluates its polynomial with the
coefficients `0.16666667` and `0.04166667` as written in the source, so
at input lane 1 the result differs from the exact Maclaurin value
`1 + 1 + 1/2 + 1/6 + 1/24`. -/
theorem claim_C7_counterexample :
    (neon_exp_f32x4 ⟨1, 1, 1, 1⟩).s0 ≠
      1 + 1 + (1 : ℚ) / 2 + 1 / 6 + 1 / 24 := by
  norm_num [neon_exp_f32x4, vminq_f32, vmaxq_f32, vdupq_n_f32,
    vmulq_f32, vfmaq_f32]

lemma clamp88_mem (y : ℚ) : -88 ≤ clamp88 y ∧ clamp88 y ≤ 88 := by
  unfold clamp88
  refine ⟨le_max_right _ _, max_le (le_trans (min_le_right y 88) le_rfl)
    (by norm_num)⟩

lemma expPolySpec_bound (y : ℚ) (h1 : -88 ≤ y) (h2 : y ≤ 88) :
    |expPolySpec y| ≤ 3000000 := by
  have hy2n : 0 ≤ y ^ 2 := sq_nonneg y
  have hy2 : y ^ 2 ≤ 7744 := by nlinarith
  have hy3u : y ^ 3 ≤ 681472 := by
    nlinarith [mul_nonneg hy2n (show (0 : ℚ) ≤ 88 - y by linarith)]
  have hy3l : -681472 ≤ y ^ 3 := by
    nlinarith [mul_nonneg hy2n (show (0 : ℚ) ≤ y + 88 by linarith)]
  have hy4n : 0 ≤ y ^ 4 := by positivity
  have hy4 : y ^ 4 ≤ 59969536 := by
    nlinarith [mul_le_mul hy2 hy2 hy2n (show (0 : ℚ) ≤ 7744 by norm_num)]
  rw [abs_le]
  unfold expPolySpec
  constructor <;> nlinarith

/-- Claim C7 (amended): `neon_exp_f32x4` first clamps every lane to
[-88, 88] and then evaluates the degree-4 polynomial with the source
coefficients `0.16666667` and `0.04166667` (the decimal approximations
of the Maclaurin coefficients 1/6 and 1/24) on the clamped value, and
every result lane is bounded, hence finite in single precision. -/
theorem claim_C7_clamp_then_poly_finite (x : F32x4) :
    neon_exp_f32x4 x =
      ⟨expPolySpec (clamp88 x.s0), expPolySpec (clamp88 x.s1),
       expPolySpec (clamp88 x.s2), expPolySpec (clamp88 x.s3)⟩ ∧
    |(neon_exp_f32x4 x).s0| < 2 ^ 128 ∧
    |(neon_exp_f32x4 x).s1| < 2 ^ 128 ∧
    |(neon_exp_f32x4 x).s2| < 2 ^ 128 ∧
    |(neon_exp_f32x4 x).s3| < 2 ^ 128 := by
  have hlane : ∀ y : ℚ, |expPolySpec (clamp88 y)| < 2 ^ 128 := by
    intro y
    have h := clamp88_mem y
    have hb := expPolySpec_bound _ h.1 h.2
    calc |expPolySpec (clamp88 y)| ≤ 3000000 := hb
      _ < 2 ^ 128 := by norm_num
  have heq : neon_exp_f32x4 x =
      ⟨expPolySpec (clamp88 x.s0), expPolySpec (clamp88 x.s1),
       expPolySpec (clamp88 x.s2), expPolySpec (clamp88 x.s3)⟩ := by
    simp only [neon_exp_f32x4, vminq_f32, vmaxq_f32, vdupq_n_f32,
      vmulq_f32, vfmaq_f32, expPolySpec, clamp88, F32x4.mk.injEq]
    refine ⟨by ring, by ring, by ring, by ring⟩
  refine ⟨heq, ?_, ?_, ?_, ?_⟩ <;> rw [heq] <;> exact hlane _

/-- Error codes from src/neon_types.h (`NEON_SUCCESS` = 0 down to
`NEON_ERROR_INVALID_PARAM` = -5, in declaration order). -/
inductive NeonError where
  | success
  | nullPointer
  | invalidSize
  | misaligned
  | outOfMemory
  | invalidParam
  deriving DecidableEq

/-- The `NEON_ALIGNMENT` from src/neon_types.h. -/
def NEON_ALIGNMENT : ℕ := 16

/-- Allocator state: per-block element contents, the list of live
(allocated and not yet freed) block ids, the next fresh id, and a latch
that records a `free` of a block that was not live (a double free). -/
structure Heap where
  contents : ℕ → ℕ → ℚ
  live : List ℕ
  next : ℕ
  doubleFree : Bool

/-- The `aligned_malloc` (src/memory_align.h): reject alignment 0 or with
more than one bit set (the source test `alignment & (alignment - 1)`),
else allocate via `posix_memalign`, whose success is the oracle `osOk`;
failure is reported by returning null.  Fresh storage keeps whatever the
contents function already held at the fresh id (uninitialised junk). -/
def aligned_malloc (h : Heap) (size alignment : ℕ) (osOk : Bool) :
    Option ℕ × Heap :=
  if alignment = 0 ∨ alignment &&& (alignment - 1) ≠ 0 then
    (none, h)
  else if osOk then
    (some h.next, { h with live := h.next :: h.live, next := h.next + 1 })
  else
    (none, h)

/-- The `aligned_free` (src/memory_align.h): no-op on null, otherwise free
the block; freeing a block that is not live latches `doubleFree`. -/
def aligned_free (h : Heap) (ptr : Option ℕ) : Heap :=
  match ptr with
  | none => h
  | some b =>
    if b ∈ h.live then { h with live := h.live.erase b }
    else { h with doubleFree := true }

/-- The `neon_malloc` (src/memory_align.h): `aligned_malloc` at the NEON
alignment. -/
def neon_malloc (h : Heap) (size : ℕ) (osOk : Bool) : Option ℕ × Heap :=
  aligned_malloc h size NEON_ALIGNMENT osOk

/-- The `neon_free` (src/memory_align.h). -/
def neon_free (h : Heap) (ptr : Option ℕ) : Heap := aligned_free h ptr

/-- The `AlignedBuffer` (src/neon_types.h): data pointer (a block id or
null), logical size, allocated capacity, in elements. -/
structure AlignedBuffer where
  data : Option ℕ
  size : ℕ
  capacity : ℕ
  deriving DecidableEq

/-- The `memcpy(new, old, count * sizeof(float))` between two heap blocks:
the first `count` elements of `dstB` become the first `count` elements
of `srcB`; everything else is untouched. -/
def heapMemcpy (h : Heap) (dstB srcB : ℕ) (count : ℕ) : Heap :=
  { h with contents := fun b o =>
      if b = dstB ∧ o < count then h.contents srcB o else h.contents b o }

/-- The `aligned_buffer_destroy` (src/memory_align.h).  The source line
`buffer->data == NULL;` is a comparison whose value is discarded, not
an assignment, so `data` keeps pointing at the freed block; the
embedding reproduces that faithfully. -/
def aligned_buffer_destroy (buffer : Option AlignedBuffer) (h : Heap) :
    Option AlignedBuffer × Heap :=
  match buffer with
  | none => (none, h)
  | some buf =>
    match buf.data with
    | some b =>
      let h1 := neon_free h (some b)
      (some { buf with size := 0, capacity := 0 }, h1)
    | none => (some { buf with size := 0, capacity := 0 }, h)

/-- The `aligned_buffer_resize` (src/memory_align.h): null check, grow-only
no-op branch, fresh allocation (element count `new_capacity`, byte size
`new_capacity * 4`), copy of the first `size` old elements, free of the
old block, and swap of data/capacity. -/
def aligned_buffer_resize (buffer : Option AlignedBuffer)
    (new_capacity : ℕ) (h : Heap) (osOk : Bool) :
    NeonError × Option AlignedBuffer × Heap :=
  match buffer with
  | none => (NeonError.nullPointer, none, h)
  | some buf =>
    if new_capacity ≤ buf.capacity then
      (NeonError.success, some buf, h)
    else
      match neon_malloc h (new_capacity * 4) osOk with
      | (none, h1) => (NeonError.outOfMemory, some buf, h1)
      | (some b, h1) =>
        match buf.data with
        | some ob =>
          let h2 := heapMemcpy h1 b ob buf.size
          let h3 := neon_free h2 (some ob)
          (NeonError.success,
           some { buf with data := some b, capacity := new_capacity }, h3)
        | none =>
          (NeonError.success,
           some { buf with data := some b, capacity := new_capacity }, h1)

lemma testBit_of_bounds {m k : ℕ} (h1 : 2 ^ k ≤ m) (h2 : m < 2 ^ (k + 1)) :
    m.testBit k = true := by
  rw [Nat.testBit_to_div_mod]
  have hdiv : m / 2 ^ k = 1 := by
    apply Nat.div_eq_of_lt_le
    · simpa using h1
    · have : 2 ^ (k + 1) = 2 * 2 ^ k := by ring
      omega
  simp [hdiv]

lemma land_pred_eq_zero_iff (n : ℕ) (hn : n ≠ 0) :
    n &&& (n - 1) = 0 ↔ ∃ k, n = 2 ^ k := by
  constructor
  · intro h
    refine ⟨Nat.log 2 n, ?_⟩
    by_contra hne
    set k := Nat.log 2 n
    have hle : 2 ^ k ≤ n := Nat.pow_log_le_self 2 hn
    have hlt : n < 2 ^ (k + 1) := Nat.lt_pow_succ_log_self (by norm_num) n
    have hgt : 2 ^ k < n := lt_of_le_of_ne hle (fun he => hne he.symm)
    have hbn : n.testBit k = true := testBit_of_bounds hle hlt
    have hbn1 : (n - 1).testBit k = true := by
      apply testBit_of_bounds <;> omega
    have hz := congrArg (fun m => m.testBit k) h
    simp only [Nat.testBit_land, Nat.zero_testBit, hbn, hbn1,
      Bool.and_self] at hz
    exact Bool.noConfusion hz
  · rintro ⟨k, rfl⟩
    apply Nat.eq_of_testBit_eq
    intro i
    simp only [Nat.testBit_land, Nat.testBit_two_pow,
      Nat.testBit_two_pow_sub_one, Nat.zero_testBit]
    by_cases hik : k = i
    · subst hik; simp
    · simp [hik]

/-- Claim C1 (code-bug evidence): destroying the same buffer twice.  The
first destroy leaves `data` still pointing at the freed block (the
source comparison `buffer->data == NULL;` has no effect), with size and
capacity zeroed; the second destroy therefore takes the free branch
again and frees the same block a second time. -/
theorem claim_C1_double_destroy_bug :
    ((aligned_buffer_destroy
        (aligned_buffer_destroy (some ⟨some 0, 3, 8⟩)
          ⟨fun _ _ => 0, [0], 1, false⟩).1
        (aligned_buffer_destroy (some ⟨some 0, 3, 8⟩)
          ⟨fun _ _ => 0, [0], 1, false⟩).2).2.doubleFree = true) ∧
    (aligned_buffer_destroy (some ⟨some 0, 3, 8⟩)
        ⟨fun _ _ => 0, [0], 1, false⟩).1 = some ⟨some 0, 0, 0⟩ := by
  constructor <;> rfl

/-- Claim C9: `aligned_malloc` fails (returns null, heap untouched) for
every alignment that is zero or not a power of two, and for a
power-of-two alignment it returns null exactly when the underlying OS
allocation fails — failure is communicated by null, not a code. -/
theorem claim_C9_aligned_malloc (h : Heap) (size alignment : ℕ)
    (osOk : Bool) :
    ((alignment = 0 ∨ ∀ k, alignment ≠ 2 ^ k) →
      aligned_malloc h size alignment osOk = (none, h)) ∧
    ((∃ k, alignment = 2 ^ k) →
      ((aligned_malloc h size alignment osOk).1 = none ↔ osOk = false)) := by
  constructor
  · intro hbad
    have hcond : alignment = 0 ∨ alignment &&& (alignment - 1) ≠ 0 := by
      by_cases h0 : alignment = 0
      · exact Or.inl h0
      · refine Or.inr fun hz => ?_
        rcases hbad with h0' | hnp
        · exact h0 h0'
        · rcases (land_pred_eq_zero_iff alignment h0).mp hz with ⟨k, hk⟩
          exact hnp k hk
    unfold aligned_malloc
    rw [if_pos hcond]
  · rintro ⟨k, rfl⟩
    have hcond : ¬(2 ^ k = 0 ∨ 2 ^ k &&& (2 ^ k - 1) ≠ 0) := by
      push_neg
      exact ⟨(Nat.pow_pos (show 0 < 2 by norm_num)).ne',
        (land_pred_eq_zero_iff _
          (Nat.pow_pos (show 0 < 2 by norm_num)).ne').mpr ⟨k, rfl⟩⟩
    unfold aligned_malloc
    rw [if_neg hcond]
    cases osOk <;> simp

/-- Witness for claim C9 at alignment 0 (rejected) and alignment 16
(a power of two, allocation-failure oracle false). -/
theorem claim_C9_witness :
    aligned_malloc ⟨fun _ _ => 0, [], 0, false⟩ 64 0 true =
      (none, ⟨fun _ _ => 0, [], 0, false⟩) ∧
    ((aligned_malloc ⟨fun _ _ => 0, [], 0, false⟩ 64 16 false).1 = none ↔
      false = false) :=
  ⟨(claim_C9_aligned_malloc ⟨fun _ _ => 0, [], 0, false⟩ 64 0 true).1
      (Or.inl rfl),
   (claim_C9_aligned_malloc ⟨fun _ _ => 0, [], 0, false⟩ 64 16 false).2
      ⟨4, by norm_num⟩⟩

lemma neon_malloc_ok (h : Heap) (size : ℕ) :
    neon_malloc h size true =
      (some h.next,
       { h with live := h.next :: h.live, next := h.next + 1 }) := by
  unfold neon_malloc aligned_malloc NEON_ALIGNMENT
  rw [if_neg (by decide)]
  rfl

lemma neon_malloc_fail (h : Heap) (size : ℕ) :
    neon_malloc h size false = (none, h) := by
  unfold neon_malloc aligned_malloc NEON_ALIGNMENT
  rw [if_neg (by decide)]
  rfl

lemma aligned_free_contents (h : Heap) (ptr : Option ℕ) :
    (aligned_free h ptr).contents = h.contents := by
  cases ptr with
  | none => rfl
  | some b =>
    dsimp only [aligned_free]
    split <;> rfl

/-- Claim C2: if `newCapacity <= capacity` the resize is a no-op
returning Success (buffer and heap untouched); if `newCapacity >
capacity` and the allocation succeeds, the result is Success, the
buffer holds the fresh block with `capacity = newCapacity`, and the
first `size` elements of the old block are preserved in the new one. -/
theorem claim_C2_resize_noop_and_grow (buf : AlignedBuffer) (nc : ℕ)
    (h : Heap) (osOk : Bool) :
    (nc ≤ buf.capacity →
      aligned_buffer_resize (some buf) nc h osOk =
        (NeonError.success, some buf, h)) ∧
    (buf.capacity < nc → osOk = true →
      (aligned_buffer_resize (some buf) nc h osOk).1 = NeonError.success ∧
      (aligned_buffer_resize (some buf) nc h osOk).2.1 =
        some { buf with data := some h.next, capacity := nc } ∧
      ∀ ob, buf.data = some ob → ∀ i, i < buf.size →
        (aligned_buffer_resize (some buf) nc h osOk).2.2.contents h.next i =
          h.contents ob i) := by
  constructor
  · intro hle
    simp only [aligned_buffer_resize]
    rw [if_pos hle]
  · intro hlt hos
    subst hos
    simp only [aligned_buffer_resize]
    rw [if_neg (not_le.mpr hlt), neon_malloc_ok]
    cases hbd : buf.data with
    | none =>
      refine ⟨rfl, rfl, ?_⟩
      intro ob hob
      exact absurd hob (by simp [hbd])
    | some ob0 =>
      refine ⟨rfl, rfl, ?_⟩
      intro ob hob i hi
      injection hob with hob
      subst hob
      show (neon_free (heapMemcpy _ h.next ob0 buf.size) (some ob0)).contents
          h.next i = h.contents ob0 i
      rw [neon_free, aligned_free_contents]
      simp [heapMemcpy, hi]

/-- Claim C3: resize of a null buffer returns NullPointer; when growth
is required and the allocation fails it returns OutOfMemory with the
buffer and the heap completely untouched. -/
theorem claim_C3_resize_errors (buf : AlignedBuffer) (nc : ℕ) (h : Heap)
    (osOk : Bool) :
    (aligned_buffer_resize none nc h osOk).1 = NeonError.nullPointer ∧
    (buf.capacity < nc →
      aligned_buffer_resize (some buf) nc h false =
        (NeonError.outOfMemory, some buf, h)) := by
  refine ⟨rfl, ?_⟩
  intro hlt
  simp only [aligned_buffer_resize]
  rw [if_neg (not_le.mpr hlt), neon_malloc_fail]

/-- Claim C10: the resize never changes the `size` field, in the no-op
branch, the growth branch, and the out-of-memory branch alike. -/
theorem claim_C10_resize_preserves_size (buf : AlignedBuffer) (nc : ℕ)
    (h : Heap) (osOk : Bool) :
    Option.map AlignedBuffer.size
      (aligned_buffer_resize (some buf) nc h osOk).2.1 = some buf.size := by
  simp only [aligned_buffer_resize]
  by_cases hle : nc ≤ buf.capacity
  · rw [if_pos hle]
    rfl
  · rw [if_neg hle]
    cases osOk with
    | false =>
      rw [neon_malloc_fail]
      rfl
    | true =>
      rw [neon_malloc_ok]
      cases hbd : buf.data <;> rfl

/-- Witness for claim C2: no-op resize 4 -> 3 and growing resize 4 -> 8
on a concrete buffer and heap. -/
theorem claim_C2_witness :
    (aligned_buffer_resize (some ⟨some 0, 2, 4⟩) 3
        ⟨fun b o => (b : ℚ) * 100 + (o : ℚ), [0], 1, false⟩ true =
      (NeonError.success, some ⟨some 0, 2, 4⟩,
        ⟨fun b o => (b : ℚ) * 100 + (o : ℚ), [0], 1, false⟩)) ∧
    ((4 : ℕ) < 8 ∧
      ((aligned_buffer_resize (some ⟨some 0, 2, 4⟩) 8
          ⟨fun b o => (b : ℚ) * 100 + (o : ℚ), [0], 1, false⟩ true).1 =
        NeonError.success ∧
      (aligned_buffer_resize (some ⟨some 0, 2, 4⟩) 8
          ⟨fun b o => (b : ℚ) * 100 + (o : ℚ), [0], 1, false⟩ true).2.1 =
        some ⟨some 1, 2, 8⟩ ∧
      ∀ ob, (some 0 : Option ℕ) = some ob → ∀ i, i < 2 →
        (aligned_buffer_resize (some ⟨some 0, 2, 4⟩) 8
            ⟨fun b o => (b : ℚ) * 100 + (o : ℚ), [0], 1, false⟩
            true).2.2.contents 1 i =
          (fun b o => (b : ℚ) * 100 + (o : ℚ)) ob i)) :=
  ⟨(claim_C2_resize_noop_and_grow ⟨some 0, 2, 4⟩ 3
      ⟨fun b o => (b : ℚ) * 100 + (o : ℚ), [0], 1, false⟩ true).1
      (by decide),
   by decide,
   (claim_C2_resize_noop_and_grow ⟨some 0, 2, 4⟩ 8
      ⟨fun b o => (b : ℚ) * 100 + (o : ℚ), [0], 1, false⟩ true).2
      (by decide) rfl⟩

/-- Witness for claim C3: null buffer, and a failing growth of a
concrete buffer, leaving it untouched. -/
theorem claim_C3_witness :
    ((aligned_buffer_resize none 8
        ⟨fun _ _ => 0, [0], 1, false⟩ true).1 = NeonError.nullPointer) ∧
    ((4 : ℕ) < 8 ∧
      aligned_buffer_resize (some ⟨some 0, 2, 4⟩) 8
          ⟨fun _ _ => 0, [0], 1, false⟩ false =
        (NeonError.outOfMemory, some ⟨some 0, 2, 4⟩,
          ⟨fun _ _ => 0, [0], 1, false⟩)) :=
  ⟨(claim_C3_resize_errors ⟨some 0, 2, 4⟩ 8
      ⟨fun _ _ => 0, [0], 1, false⟩ true).1,
   by decide,
   (claim_C3_resize_errors ⟨some 0, 2, 4⟩ 8
      ⟨fun _ _ => 0, [0], 1, false⟩ true).2 (by decide)⟩

/-- Intrinsic `vld1q_f32`: load four consecutive elements starting at
element offset `p`. -/
def vld1q_f32 (m : ℕ → ℚ) (p : ℕ) : F32x4 :=
  ⟨m p, m (p + 1), m (p + 2), m (p + 3)⟩

/-- Intrinsic `vst1q_f32`: store the four lanes at the four consecutive
element offsets starting at `p`. -/
def vst1q_f32 (m : ℕ → ℚ) (p : ℕ) (v : F32x4) : ℕ → ℚ :=
  fun k =>
    if k = p then v.s0
    else if k = p + 1 then v.s1
    else if k = p + 2 then v.s2
    else if k = p + 3 then v.s3
    else m k

/-- A single scalar store `dst[p] = x`. -/
def store1 (m : ℕ → ℚ) (p : ℕ) (x : ℚ) : ℕ → ℚ :=
  fun k => if k = p then x else m k

/-- The libc `memcpy(dst, src, size * sizeof(float))` over float
elements (non-overlapping operands). -/
def memcpyF32 (dst src : ℕ → ℚ) (size : ℕ) : ℕ → ℚ :=
  fun k => if k < size then src k else dst k

/-- One iteration body of the 16-element loop of `neon_memory_f32`:
four vector loads from `src + i .. src + i + 12`, then four vector
stores to the same offsets of `dst`, in source order. -/
def copyBlock16 (dst src : ℕ → ℚ) (i : ℕ) : ℕ → ℚ :=
  let v0 := vld1q_f32 src i
  let v1 := vld1q_f32 src (i + 4)
  let v2 := vld1q_f32 src (i + 8)
  let v3 := vld1q_f32 src (i + 12)
  let d0 := vst1q_f32 dst i v0
  let d1 := vst1q_f32 d0 (i + 4) v1
  let d2 := vst1q_f32 d1 (i + 8) v2
  vst1q_f32 d2 (i + 12) v3

/-- The first loop of `neon_memory_f32`
(`for (; i + 16 <= size; i += 16)`), guard verbatim; the structural
fuel only bounds the iteration count and is never exhausted when at
least `size`.  Returns the updated memory and the loop index `i` at
exit. -/
def neon_memory_loop16 : ℕ → (ℕ → ℚ) → (ℕ → ℚ) → ℕ → ℕ → (ℕ → ℚ) × ℕ
  | 0, dst, _, i, _ => (dst, i)
  | fuel + 1, dst, src, i, size =>
    if i + 16 ≤ size then
      neon_memory_loop16 fuel (copyBlock16 dst src i) src (i + 16) size
    else (dst, i)

/-- The second loop of `neon_memory_f32`
(`for (; i + 4 <= size; i += 4)`): one vector load and store per
iteration. -/
def neon_memory_loop4 : ℕ → (ℕ → ℚ) → (ℕ → ℚ) → ℕ → ℕ → (ℕ → ℚ) × ℕ
  | 0, dst, _, i, _ => (dst, i)
  | fuel + 1, dst, src, i, size =>
    if i + 4 ≤ size then
      neon_memory_loop4 fuel (vst1q_f32 dst i (vld1q_f32 src i)) src
        (i + 4) size
    else (dst, i)

/-- The remainder loop of `neon_memory_f32`
(`for (; i < size; i++) dst[i] = src[i]`). -/
def neon_memory_loop1 : ℕ → (ℕ → ℚ) → (ℕ → ℚ) → ℕ → ℕ → (ℕ → ℚ)
  | 0, dst, _, _, _ => dst
  | fuel + 1, dst, src, i, size =>
    if i < size then
      neon_memory_loop1 fuel (store1 dst i (src i)) src (i + 1) size
    else dst

/-- The `neon_memory_f32` (src/memory_align.h).  `aligned` is the value of
`IS_ALIGNED(dst) && IS_ALIGNED(src)`; when it is false the function
falls back to `memcpy`, otherwise it runs the 16/4/1 chunked loops. -/
def neon_memory_f32 (aligned : Bool) (dst src : ℕ → ℚ) (size : ℕ) :
    ℕ → ℚ :=
  if aligned = false then
    memcpyF32 dst src size
  else
    let r16 := neon_memory_loop16 size dst src 0 size
    let r4 := neon_memory_loop4 size r16.1 src r16.2 size
    neon_memory_loop1 size r4.1 src r4.2 size

lemma vst1q_vld1q_spec (d s : ℕ → ℚ) (p k : ℕ) :
    vst1q_f32 d p (vld1q_f32 s p) k =
      if p ≤ k ∧ k < p + 4 then s k else d k := by
  simp only [vst1q_f32, vld1q_f32]
  split_ifs <;> first | rfl | omega | (subst_vars; rfl)

lemma copyBlock16_spec (dst src : ℕ → ℚ) (i k : ℕ) :
    copyBlock16 dst src i k =
      if i ≤ k ∧ k < i + 16 then src k else dst k := by
  simp only [copyBlock16, vst1q_vld1q_spec]
  split_ifs <;> first | rfl | omega

lemma store1_spec (d : ℕ → ℚ) (p : ℕ) (x : ℚ) (k : ℕ) :
    store1 d p x k = if k = p then x else d k := rfl

lemma neon_memory_loop16_spec :
    ∀ (fuel : ℕ) (dst src : ℕ → ℚ) (i size : ℕ),
      size ≤ i + 16 * fuel →
      i ≤ (neon_memory_loop16 fuel dst src i size).2 ∧
      (i ≤ size → (neon_memory_loop16 fuel dst src i size).2 ≤ size) ∧
      size < (neon_memory_loop16 fuel dst src i size).2 + 16 ∧
      ∀ k, (neon_memory_loop16 fuel dst src i size).1 k =
        if i ≤ k ∧ k < (neon_memory_loop16 fuel dst src i size).2 then src k
        else dst k := by
  intro fuel
  induction fuel with
  | zero =>
    intro dst src i size hfuel
    simp only [neon_memory_loop16]
    exact ⟨le_rfl, fun h => h, by omega,
      fun k => by rw [if_neg (by omega)]⟩
  | succ fuel ih =>
    intro dst src i size hfuel
    simp only [neon_memory_loop16]
    by_cases hg : i + 16 ≤ size
    · simp only [if_pos hg]
      obtain ⟨h1, h2, h3, h4⟩ :=
        ih (copyBlock16 dst src i) src (i + 16) size (by omega)
      refine ⟨by omega, fun _ => h2 (by omega), h3, ?_⟩
      intro k
      rw [h4 k, copyBlock16_spec]
      split_ifs <;> first | rfl | omega
    · simp only [if_neg hg]
      exact ⟨le_rfl, fun h => h, by omega,
        fun k => by rw [if_neg (by omega)]⟩

lemma neon_memory_loop4_spec :
    ∀ (fuel : ℕ) (dst src : ℕ → ℚ) (i size : ℕ),
      size ≤ i + 4 * fuel →
      i ≤ (neon_memory_loop4 fuel dst src i size).2 ∧
      (i ≤ size → (neon_memory_loop4 fuel dst src i size).2 ≤ size) ∧
      size < (neon_memory_loop4 fuel dst src i size).2 + 4 ∧
      ∀ k, (neon_memory_loop4 fuel dst src i size).1 k =
        if i ≤ k ∧ k < (neon_memory_loop4 fuel dst src i size).2 then src k
        else dst k := by
  intro fuel
  induction fuel with
  | zero =>
    intro dst src i size hfuel
    simp only [neon_memory_loop4]
    exact ⟨le_rfl, fun h => h, by omega,
      fun k => by rw [if_neg (by omega)]⟩
  | succ fuel ih =>
    intro dst src i size hfuel
    simp only [neon_memory_loop4]
    by_cases hg : i + 4 ≤ size
    · simp only [if_pos hg]
      obtain ⟨h1, h2, h3, h4⟩ :=
        ih (vst1q_f32 dst i (vld1q_f32 src i)) src (i + 4) size (by omega)
      refine ⟨by omega, fun _ => h2 (by omega), h3, ?_⟩
      intro k
      rw [h4 k, vst1q_vld1q_spec]
      split_ifs <;> first | rfl | omega
    · simp only [if_neg hg]
      exact ⟨le_rfl, fun h => h, by omega,
        fun k => by rw [if_neg (by omega)]⟩

lemma neon_memory_loop1_spec :
    ∀ (fuel : ℕ) (dst src : ℕ → ℚ) (i size : ℕ),
      size ≤ i + fuel →
      ∀ k, neon_memory_loop1 fuel dst src i size k =
        if i ≤ k ∧ k < size then src k else dst k := by
  intro fuel
  induction fuel with
  | zero =>
    intro dst src i size hfuel k
    simp only [neon_memory_loop1]
    rw [if_neg (by omega)]
  | succ fuel ih =>
    intro dst src i size hfuel k
    simp only [neon_memory_loop1]
    by_cases hg : i < size
    · rw [if_pos hg, ih (store1 dst i (src i)) src (i + 1) size (by omega) k,
        store1_spec]
      split_ifs <;> first | rfl | omega | (subst_vars; rfl)
    · rw [if_neg hg, if_neg (by omega)]

lemma neon_memory_f32_aligned (dst src : ℕ → ℚ) (size k : ℕ) :
    neon_memory_f32 true dst src size k = memcpyF32 dst src size k := by
  obtain ⟨h16a, h16b, h16c, h16d⟩ :=
    neon_memory_loop16_spec size dst src 0 size (by omega)
  obtain ⟨h4a, h4b, h4c, h4d⟩ :=
    neon_memory_loop4_spec size (neon_memory_loop16 size dst src 0 size).1
      src (neon_memory_loop16 size dst src 0 size).2 size (by omega)
  have hi1 : (neon_memory_loop16 size dst src 0 size).2 ≤ size :=
    h16b (by omega)
  have hi2 : (neon_memory_loop4 size
      (neon_memory_loop16 size dst src 0 size).1 src
      (neon_memory_loop16 size dst src 0 size).2 size).2 ≤ size :=
    h4b hi1
  show neon_memory_loop1 size _ src _ size k = _
  rw [neon_memory_loop1_spec size _ src _ size (by omega) k, h4d k, h16d k]
  unfold memcpyF32
  split_ifs <;> first | rfl | omega

/-- Claim C4: for non-overlapping spans (distinct `dst`/`src` functions)
of any length, the aligned 16/4/1 fast path of `neon_memory_f32` makes
`dst[i] = src[i]` for every `i < size`, as does the `memcpy` fallback,
and the two paths produce identical memory. -/
theorem claim_C4_copy_correct (dst src : ℕ → ℚ) (size : ℕ) :
    (∀ i, i < size →
      neon_memory_f32 true dst src size i = src i ∧
      neon_memory_f32 false dst src size i = src i) ∧
    neon_memory_f32 true dst src size =
      neon_memory_f32 false dst src size := by
  have hfall : ∀ k, neon_memory_f32 false dst src size k =
      memcpyF32 dst src size k := fun k => rfl
  constructor
  · intro i hi
    constructor
    · rw [neon_memory_f32_aligned dst src size i]
      unfold memcpyF32
      rw [if_pos hi]
    · rw [hfall i]
      unfold memcpyF32
      rw [if_pos hi]
  · funext k
    rw [neon_memory_f32_aligned dst src size k, hfall k]

/-- Witness for claim C4: size 21 (one 16-block, one 4-block, one
scalar remainder element), checked at indices 3, 17 and 20 on both
paths. -/
theorem claim_C4_witness :
    ((3 : ℕ) < 21 ∧
      neon_memory_f32 true (fun _ => 0) (fun k => (k : ℚ) + 100) 21 3 =
        (fun k => (k : ℚ) + 100) 3 ∧
      neon_memory_f32 false (fun _ => 0) (fun k => (k : ℚ) + 100) 21 3 =
        (fun k => (k : ℚ) + 100) 3) ∧
    ((17 : ℕ) < 21 ∧
      neon_memory_f32 true (fun _ => 0) (fun k => (k : ℚ) + 100) 21 17 =
        (fun k => (k : ℚ) + 100) 17) ∧
    ((20 : ℕ) < 21 ∧
      neon_memory_f32 true (fun _ => 0) (fun k => (k : ℚ) + 100) 21 20 =
        (fun k => (k : ℚ) + 100) 20) :=
  ⟨⟨by decide,
    (claim_C4_copy_correct (fun _ => 0) (fun k => (k : ℚ) + 100) 21).1 3
      (by decide)⟩,
   ⟨by decide,
    ((claim_C4_copy_correct (fun _ => 0) (fun k => (k : ℚ) + 100) 21).1 17
      (by decide)).1⟩,
   ⟨by decide,
    ((claim_C4_copy_correct (fun _ => 0) (fun k => (k : ℚ) + 100) 21).1 20
      (by decide)).1⟩⟩

/-- One iteration body of the 16-element loop of `neon_fill_f32`: four
vector stores of the broadcast register `v`, in source order. -/
def fillBlock16 (dst : ℕ → ℚ) (v : F32x4) (i : ℕ) : ℕ → ℚ :=
  let d0 := vst1q_f32 dst i v
  let d1 := vst1q_f32 d0 (i + 4) v
  let d2 := vst1q_f32 d1 (i + 8) v
  vst1q_f32 d2 (i + 12) v

/-- The first loop of `neon_fill_f32` (`for (; i + 16 <= size; i += 16)`). -/
def neon_fill_loop16 : ℕ → (ℕ → ℚ) → F32x4 → ℕ → ℕ → (ℕ → ℚ) × ℕ
  | 0, dst, _, i, _ => (dst, i)
  | fuel + 1, dst, v, i, size =>
    if i + 16 ≤ size then
      neon_fill_loop16 fuel (fillBlock16 dst v i) v (i + 16) size
    else (dst, i)

/-- The second loop of `neon_fill_f32` (`for (; i + 4 <= size; i += 4)`). -/
def neon_fill_loop4 : ℕ → (ℕ → ℚ) → F32x4 → ℕ → ℕ → (ℕ → ℚ) × ℕ
  | 0, dst, _, i, _ => (dst, i)
  | fuel + 1, dst, v, i, size =>
    if i + 4 ≤ size then
      neon_fill_loop4 fuel (vst1q_f32 dst i v) v (i + 4) size
    else (dst, i)

/-- The scalar fill loop (`for (; i < size; i++) dst[i] = value`), used
both as the remainder loop and, from `i = 0`, as the unaligned
fallback of `neon_fill_f32`. -/
def neon_fill_loop1 : ℕ → (ℕ → ℚ) → ℚ → ℕ → ℕ → (ℕ → ℚ)
  | 0, dst, _, _, _ => dst
  | fuel + 1, dst, value, i, size =>
    if i < size then
      neon_fill_loop1 fuel (store1 dst i value) value (i + 1) size
    else dst

/-- The `neon_fill_f32` (src/memory_align.h).  `aligned` is the value of
`IS_ALIGNED(dst)`; when it is false the function runs the scalar
fallback loop, otherwise it broadcasts `value` and runs the 16/4/1
chunked loops. -/
def neon_fill_f32 (aligned : Bool) (dst : ℕ → ℚ) (value : ℚ)
    (size : ℕ) : ℕ → ℚ :=
  if aligned = false then
    neon_fill_loop1 size dst value 0 size
  else
    let v := vdupq_n_f32 value
    let r16 := neon_fill_loop16 size dst v 0 size
    let r4 := neon_fill_loop4 size r16.1 v r16.2 size
    neon_fill_loop1 size r4.1 value r4.2 size

lemma vst1q_dup_spec (d : ℕ → ℚ) (p : ℕ) (x : ℚ) (k : ℕ) :
    vst1q_f32 d p (vdupq_n_f32 x) k =
      if p ≤ k ∧ k < p + 4 then x else d k := by
  simp only [vst1q_f32, vdupq_n_f32]
  split_ifs <;> first | rfl | omega

lemma fillBlock16_spec (dst : ℕ → ℚ) (x : ℚ) (i k : ℕ) :
    fillBlock16 dst (vdupq_n_f32 x) i k =
      if i ≤ k ∧ k < i + 16 then x else dst k := by
  simp only [fillBlock16, vst1q_dup_spec]
  split_ifs <;> first | rfl | omega

lemma neon_fill_loop16_spec :
    ∀ (fuel : ℕ) (dst : ℕ → ℚ) (x : ℚ) (i size : ℕ),
      size ≤ i + 16 * fuel →
      i ≤ (neon_fill_loop16 fuel dst (vdupq_n_f32 x) i size).2 ∧
      (i ≤ size → (neon_fill_loop16 fuel dst (vdupq_n_f32 x) i size).2 ≤ size) ∧
      size < (neon_fill_loop16 fuel dst (vdupq_n_f32 x) i size).2 + 16 ∧
      ∀ k, (neon_fill_loop16 fuel dst (vdupq_n_f32 x) i size).1 k =
        if i ≤ k ∧ k < (neon_fill_loop16 fuel dst (vdupq_n_f32 x) i size).2
        then x else dst k := by
  intro fuel
  induction fuel with
  | zero =>
    intro dst x i size hfuel
    simp only [neon_fill_loop16]
    exact ⟨le_rfl, fun h => h, by omega,
      fun k => by rw [if_neg (by omega)]⟩
  | succ fuel ih =>
    intro dst x i size hfuel
    simp only [neon_fill_loop16]
    by_cases hg : i + 16 ≤ size
    · simp only [if_pos hg]
      obtain ⟨h1, h2, h3, h4⟩ :=
        ih (fillBlock16 dst (vdupq_n_f32 x) i) x (i + 16) size (by omega)
      refine ⟨by omega, fun _ => h2 (by omega), h3, ?_⟩
      intro k
      rw [h4 k, fillBlock16_spec]
      split_ifs <;> first | rfl | omega
    · simp only [if_neg hg]
      exact ⟨le_rfl, fun h => h, by omega,
        fun k => by rw [if_neg (by omega)]⟩

lemma neon_fill_loop4_spec :
    ∀ (fuel : ℕ) (dst : ℕ → ℚ) (x : ℚ) (i size : ℕ),
      size ≤ i + 4 * fuel →
      i ≤ (neon_fill_loop4 fuel dst (vdupq_n_f32 x) i size).2 ∧
      (i ≤ size → (neon_fill_loop4 fuel dst (vdupq_n_f32 x) i size).2 ≤ size) ∧
      size < (neon_fill_loop4 fuel dst (vdupq_n_f32 x) i size).2 + 4 ∧
      ∀ k, (neon_fill_loop4 fuel dst (vdupq_n_f32 x) i size).1 k =
        if i ≤ k ∧ k < (neon_fill_loop4 fuel dst (vdupq_n_f32 x) i size).2
        then x else dst k := by
  intro fuel
  induction fuel with
  | zero =>
    intro dst x i size hfuel
    simp only [neon_fill_loop4]
    exact ⟨le_rfl, fun h => h, by omega,
      fun k => by rw [if_neg (by omega)]⟩
  | succ fuel ih =>
    intro dst x i size hfuel
    simp only [neon_fill_loop4]
    by_cases hg : i + 4 ≤ size
    · simp only [if_pos hg]
      obtain ⟨h1, h2, h3, h4⟩ :=
        ih (vst1q_f32 dst i (vdupq_n_f32 x)) x (i + 4) size (by omega)
      refine ⟨by omega, fun _ => h2 (by omega), h3, ?_⟩
      intro k
      rw [h4 k, vst1q_dup_spec]
      split_ifs <;> first | rfl | omega
    · simp only [if_neg hg]
      exact ⟨le_rfl, fun h => h, by omega,
        fun k => by rw [if_neg (by omega)]⟩

lemma neon_fill_loop1_spec :
    ∀ (fuel : ℕ) (dst : ℕ → ℚ) (x : ℚ) (i size : ℕ),
      size ≤ i + fuel →
      ∀ k, neon_fill_loop1 fuel dst x i size k =
        if i ≤ k ∧ k < size then x else dst k := by
  intro fuel
  induction fuel with
  | zero =>
    intro dst x i size hfuel k
    simp only [neon_fill_loop1]
    rw [if_neg (by omega)]
  | succ fuel ih =>
    intro dst x i size hfuel k
    simp only [neon_fill_loop1]
    by_cases hg : i < size
    · rw [if_pos hg, ih (store1 dst i x) x (i + 1) size (by omega) k,
        store1_spec]
      split_ifs <;> first | rfl | omega
    · rw [if_neg hg, if_neg (by omega)]

lemma neon_fill_f32_aligned (dst : ℕ → ℚ) (value : ℚ) (size k : ℕ) :
    neon_fill_f32 true dst value size k =
      if k < size then value else dst k := by
  obtain ⟨h16a, h16b, h16c, h16d⟩ :=
    neon_fill_loop16_spec size dst value 0 size (by omega)
  obtain ⟨h4a, h4b, h4c, h4d⟩ :=
    neon_fill_loop4_spec size
      (neon_fill_loop16 size dst (vdupq_n_f32 value) 0 size).1 value
      (neon_fill_loop16 size dst (vdupq_n_f32 value) 0 size).2 size
      (by omega)
  have hi1 : (neon_fill_loop16 size dst (vdupq_n_f32 value) 0 size).2 ≤
      size := h16b (by omega)
  have hi2 : (neon_fill_loop4 size
      (neon_fill_loop16 size dst (vdupq_n_f32 value) 0 size).1
      (vdupq_n_f32 value)
      (neon_fill_loop16 size dst (vdupq_n_f32 value) 0 size).2 size).2 ≤
      size := h4b hi1
  show neon_fill_loop1 size _ value _ size k = _
  rw [neon_fill_loop1_spec size _ value _ size (by omega) k, h4d k, h16d k]
  split_ifs <;> first | rfl | omega

lemma neon_fill_f32_fallback (dst : ℕ → ℚ) (value : ℚ) (size k : ℕ) :
    neon_fill_f32 false dst value size k =
      if k < size then value else dst k := by
  show neon_fill_loop1 size dst value 0 size k = _
  rw [neon_fill_loop1_spec size dst value 0 size (by omega) k]
  split_ifs <;> first | rfl | omega

/-- Claim C5: on both the aligned 16/4/1 path and the scalar fallback,
`neon_fill_f32` sets every element below `size` to `value` and leaves
every element at index `size` or beyond untouched. -/
theorem claim_C5_fill_correct (dst : ℕ → ℚ) (value : ℚ) (size : ℕ) :
    (∀ i, i < size →
      neon_fill_f32 true dst value size i = value ∧
      neon_fill_f32 false dst value size i = value) ∧
    (∀ i, size ≤ i →
      neon_fill_f32 true dst value size i = dst i ∧
      neon_fill_f32 false dst value size i = dst i) := by
  constructor
  · intro i hi
    rw [neon_fill_f32_aligned dst value size i,
      neon_fill_f32_fallback dst value size i, if_pos hi]
    exact ⟨rfl, rfl⟩
  · intro i hi
    rw [neon_fill_f32_aligned dst value size i,
      neon_fill_f32_fallback dst value size i,
      if_neg (show ¬i < size by omega)]
    exact ⟨rfl, rfl⟩

/-- Witness for claim C5: size 21, value 7, checked inside the filled
range (index 20) and just beyond it (index 21), on both paths. -/
theorem claim_C5_witness :
    ((20 : ℕ) < 21 ∧
      neon_fill_f32 true (fun k => (k : ℚ)) 7 21 20 = 7 ∧
      neon_fill_f32 false (fun k => (k : ℚ)) 7 21 20 = 7) ∧
    ((21 : ℕ) ≤ 21 ∧
      neon_fill_f32 true (fun k => (k : ℚ)) 7 21 21 =
        (fun k => (k : ℚ)) 21 ∧
      neon_fill_f32 false (fun k => (k : ℚ)) 7 21 21 =
        (fun k => (k : ℚ)) 21) :=
  ⟨⟨by decide,
    (claim_C5_fill_correct (fun k => (k : ℚ)) 7 21).1 20 (by decide)⟩,
   ⟨by decide,
    (claim_C5_fill_correct (fun k => (k : ℚ)) 7 21).2 21 (by decide)⟩⟩
